import Mathlib

/-!
Shallow embedding of `ia_ebooks.py`: the `IA` paged-search iterator, the
`clio_id` catalog-identifier extractor (regexes `CLIO_DERIVED_ID` and
`CLIO_LINK`), the `fetch_clio` MARC fetch with its single rate-limit retry,
the `ia_links` URL templating and the `dump_iterable` streaming JSON
printer.  Remote HTTP collaborators are modelled as explicit parameters
(the server's ranked document list for the search API, a response function
for the catalog API); machine-visible effects (sleeps, request counts,
printed lines) are returned as data.
-/

/-- An IA search document, modelled as an association list of the
string-valued fields the program reads (`doc['identifier']`,
`doc.get('stripped_tags', '')`). -/
abbrev Doc : Type := List (String × String)

/-- Python `dict` lookup on a `Doc`: the first binding for the key, if any. -/
def Doc.find? (d : Doc) (k : String) : Option String :=
  (List.find? (fun kv => kv.1 == k) d).map (fun kv => kv.2)

/-- One atom of a Python regex used by the program: `some c` is a literal
character, `none` is the unescaped `.` metacharacter (matches any char). -/
def patCharMatches : Option Char → Char → Bool
  | none, _ => true
  | some pc, c => pc == c

/-- Anchored match of an atom list against a prefix of `cs`, returning the
remaining characters on success.  The atom lists used below contain no
quantifiers, so this matcher is exact (no backtracking is needed). -/
def matchPat : List (Option Char) → List Char → Option (List Char)
  | [], cs => some cs
  | _ :: _, [] => none
  | p :: ps, c :: cs => if patCharMatches p c then matchPat ps cs else none

/-- The literal part of `CLIO_LINK = re.compile('"http:\\/\\/clio.columbia.edu\\/catalog\\/([0-9A-Za-z]+)"')`
up to the capture group.  The two unescaped `.` in `clio.columbia.edu` are
wildcards (`none`); everything else, including the opening double quote and
the slashes, is literal. -/
def CLIO_LINK_pat : List (Option Char) :=
  ("\"http://clio".toList.map some) ++ [none] ++ ("columbia".toList.map some)
    ++ [none] ++ ("edu/catalog/".toList.map some)

/-- Attempt the `CLIO_LINK` regex anchored at the head of `cs`: the literal
prefix, then the capture group `([0-9A-Za-z]+)` (greedy; Python's
`[0-9A-Za-z]` is exactly `Char.isAlphanum`), then the closing `"`.
Shrinking the greedy group can never help — every shorter group leaves an
alphanumeric character where `"` is required — so taking the maximal
alphanumeric run is exact. -/
def CLIO_LINK_matchAt (cs : List Char) : Option String :=
  match matchPat CLIO_LINK_pat cs with
  | none => none
  | some rest =>
    let idc := rest.takeWhile Char.isAlphanum
    if idc.isEmpty then none
    else if (rest.drop idc.length).head? == some '"' then some (String.mk idc)
    else none

/-- `CLIO_LINK.search`: leftmost match wins, scanning start positions left
to right. -/
def CLIO_LINK_search_list : List Char → Option String
  | [] => none
  | c :: cs =>
    match CLIO_LINK_matchAt (c :: cs) with
    | some r => some r
    | none => CLIO_LINK_search_list cs

/-- `CLIO_LINK.search(text)`, returning `group(1)` if a match exists. -/
def CLIO_LINK_search (s : String) : Option String :=
  CLIO_LINK_search_list s.toList

/-- `CLIO_DERIVED_ID = re.compile('^ldpd[_]+([0-9A-Za-z]+)[_]+\\d+$')`,
used with `.match` (anchored at the start, and ending in `$`).  The pattern
factors the subject uniquely: after the literal `ldpd`, the maximal
underscore run, then the maximal alphanumeric run (the capture group), then
the maximal underscore run, then the rest, which must be a nonempty
all-digit string reaching the end.  Backtracking can never produce any
other split, because a shortened `[_]+` leaves an underscore where an
alphanumeric or digit is required, and a shortened group leaves an
alphanumeric where `_` is required.  Python's `\d` on `str` also accepts
non-ASCII Unicode digits; this model restricts `\d` to ASCII
(`Char.isDigit`), which agrees with Python on all ASCII input. -/
def CLIO_DERIVED_ID_match_list (cs : List Char) : Option (List Char) :=
  if cs.take 4 = "ldpd".toList then
    let r0 := cs.drop 4
    let us1 := r0.takeWhile (fun c => c == '_')
    let r1 := r0.dropWhile (fun c => c == '_')
    let a := r1.takeWhile Char.isAlphanum
    let r2 := r1.dropWhile Char.isAlphanum
    let us2 := r2.takeWhile (fun c => c == '_')
    let d := r2.dropWhile (fun c => c == '_')
    if us1 ≠ [] ∧ a ≠ [] ∧ us2 ≠ [] ∧ d ≠ [] ∧ d.all Char.isDigit then some a
    else none
  else none

/-- `CLIO_DERIVED_ID.match(s)`, returning `group(1)` on success. -/
def CLIO_DERIVED_ID_match (s : String) : Option String :=
  (CLIO_DERIVED_ID_match_list s.toList).map String.mk

/-- `clio_id(doc)`: try `CLIO_DERIVED_ID.match(doc['identifier'])` first;
if it fails, `CLIO_LINK.search(doc.get('stripped_tags', ''))`; else `None`.
`doc['identifier']` raises `KeyError` when the key is absent, modelled as
`Except.error`. -/
def clio_id (doc : Doc) : Except String (Option String) :=
  match doc.find? "identifier" with
  | none => .error "KeyError: identifier"
  | some ident =>
    let bib_id : Option String :=
      match CLIO_DERIVED_ID_match ident with
      | some m => some m
      | none => none
    let bib_id : Option String :=
      match bib_id with
      | some b => some b
      | none => CLIO_LINK_search ((doc.find? "stripped_tags").getD "")
    .ok bib_id

/-- A parsed MARC record (`pymarc.Record`), abstracted to its field list;
only emptiness matters to the claims. -/
structure MarcRecord where
  fields : List (String × String)
deriving DecidableEq

/-- `pymarc.Record()`: the well-formed empty placeholder record. -/
def MarcRecord.empty : MarcRecord := ⟨[]⟩

/-- One catalog HTTP response, as `fetch_clio` observes it:
`response.status_code`, `response.headers['Retry-After']` (absent or a
decimal number of seconds), and the outcome of
`next(MARCReader(BytesIO(response.content)))` — `some r` when a record
parses, `none` when parsing raises one of the caught exceptions
(`ValueError`, `RecordLengthInvalid`). -/
structure ClioResponse where
  status_code : Nat
  retry_after_header : Option Nat
  parses_to : Option MarcRecord

/-- Observable outcome of a `fetch_clio` call: the returned record (or an
uncaught `KeyError` when a 429 response lacks the `Retry-After` header),
the `sleep` durations performed in order, and the number of HTTP GETs. -/
structure ClioOutcome where
  result : Except String MarcRecord
  sleeps : List Int
  requests : Nat

/-- `fetch_clio(identifier, retry_after=-1)`.  The catalog server is a
function from the `retry_after` argument of the attempt to its response
(the first GET is `server (-1)`, a retried GET is `server (s + 1)`).
Mirrors the source: sleep unless `retry_after == -1`, GET, try to parse;
on parse failure, if this is the first attempt and the status is 429, read
`Retry-After`, add one second and recurse once; otherwise return the empty
placeholder `Record()`. -/
def fetch_clio (server : Int → ClioResponse) (retry_after : Int) : ClioOutcome :=
  let sl : List Int := if retry_after ≠ -1 then [retry_after] else []
  let resp := server retry_after
  match resp.parses_to with
  | some r => ⟨.ok r, sl, 1⟩
  | none =>
    if h : retry_after = -1 ∧ resp.status_code = 429 then
      match resp.retry_after_header with
      | some s =>
        let sub := fetch_clio server ((s : Int) + 1)
        ⟨sub.result, sl ++ sub.sleeps, 1 + sub.requests⟩
      | none => ⟨.error "KeyError: Retry-After", sl, 1⟩
    else ⟨.ok MarcRecord.empty, sl, 1⟩
termination_by (if retry_after = -1 then (1 : Nat) else 0)
decreasing_by
  rw [if_pos h.1, if_neg (by omega)]
  omega

/-- The four derived URLs built by `ia_links`. -/
structure IALinks where
  thumbnail : String
  poster : String
  pdf : String
  iframe : String
deriving DecidableEq

/-- `ia_links(doc)`: pure string templating from `doc['identifier']`
(which raises `KeyError` when absent, modelled as `Except.error`). -/
def ia_links (doc : Doc) : Except String IALinks :=
  match doc.find? "identifier" with
  | none => .error "KeyError: identifier"
  | some ia_id =>
    .ok
      { thumbnail := "https://archive.org/services/img/" ++ ia_id
        poster := "https://archive.org/download/" ++ ia_id ++ "/page/cover_medium.jpg"
        pdf := "https://archive.org/download/" ++ ia_id ++ "/" ++ ia_id ++ ".pdf"
        iframe := "https://archive.org/stream/" ++ ia_id ++ "?ui=full&showNavbar=false" }

variable {α : Type}

/-- State of an `IA` iterator: the fields of `self.params` the iteration
logic reads (`rows`, `page`), the document buffer `self.docs`, the flag
`self.more`, plus a ghost counter of page fetches performed (used only to
state resource claims; it does not influence control flow). -/
structure IAState (α : Type) where
  rows : Nat
  page : Nat
  docs : List α
  more : Bool
  fetches : Nat
deriving DecidableEq

/-- `IA.__init__(queries, page_size, page=1)`: stores `page - 1` ("will
iterate when first page is fetched"), an empty buffer, `more = True`. -/
def IA.init (rows page : Nat) : IAState α :=
  ⟨rows, page - 1, [], true, 0⟩

/-- The paged search server assumed by the spec: for the query's ranked
document list `items`, page `p` (1-based) with `rows` per page is the slice
`items[(p-1)*rows : (p-1)*rows + rows]` — `min(rows, remaining)` documents
in ranking order, and `numFound = items.length`. -/
def serverPage (items : List α) (rows page : Nat) : List α :=
  (items.drop ((page - 1) * rows)).take rows

/-- `IA.__fetch_next_page__`: increment `page`, fetch it, replace the
buffer, and set `more = numFound > rows * page`. -/
def IA.fetchNextPage (items : List α) (s : IAState α) : IAState α :=
  let page := s.page + 1
  { s with
    page := page
    docs := serverPage items s.rows page
    more := decide (items.length > s.rows * page)
    fetches := s.fetches + 1 }

/-- `IA.__iter__`: resets `docs` and `more` — but not `params['page']`. -/
def IA.reiter (s : IAState α) : IAState α :=
  { s with docs := [], more := true }

/-- `IA.__next__`: fetch if the buffer is empty and more pages are
believed to exist; then `StopIteration` (`none`) on an empty buffer, else
pop the first buffered document. -/
def IA.next (items : List α) (s : IAState α) : Option α × IAState α :=
  let s1 := if s.docs.isEmpty && s.more then IA.fetchNextPage items s else s
  match s1.docs with
  | [] => (none, s1)
  | d :: rest => (some d, { s1 with docs := rest })

/-- A single traversal (a Python `for` loop): call `__next__` until
`StopIteration`, collecting the yielded documents; `fuel` bounds the number
of calls.  Returns the yields and the final iterator state. -/
def IA.run (items : List α) : Nat → IAState α → List α × IAState α
  | 0, s => ([], s)
  | fuel + 1, s =>
    match IA.next items s with
    | (none, s1) => ([], s1)
    | (some d, s1) =>
      let r := IA.run items fuel s1
      (d :: r.1, r.2)

/-- The tail of `dump_iterable`'s output: the `while` loop printing `,`
then the next serialized document. -/
def dump_rest (dumps : α → String) : List α → List String
  | [] => []
  | d :: rest => "," :: dumps d :: dump_rest dumps rest

/-- `dump_iterable(docs)`: the printed lines, in order.  `dumps` stands for
`json.dumps(doc, indent=2)`.  Prints `[`, then the first document and the
comma-prefixed rest (consuming the iterator one element at a time), then
`]`. -/
def dump_iterable (dumps : α → String) (docs : List α) : List String :=
  "[" ::
    ((match docs with
      | [] => []
      | d :: rest => dumps d :: dump_rest dumps rest) ++ ["]"])

/-! ## Helper lemmas -/

theorem fetch_clio_of_ne (server : Int → ClioResponse) (ra : Int) (h : ra ≠ -1) :
    fetch_clio server ra =
      (match (server ra).parses_to with
        | some r => ⟨.ok r, [ra], 1⟩
        | none => ⟨.ok MarcRecord.empty, [ra], 1⟩) := by
  unfold fetch_clio
  simp only [if_pos h]
  match hp : (server ra).parses_to with
  | some r => simp
  | none =>
    rw [dif_neg]
    intro hc
    exact h hc.1

theorem fetch_clio_requests_of_ne (server : Int → ClioResponse) (ra : Int) (h : ra ≠ -1) :
    (fetch_clio server ra).requests = 1 := by
  rw [fetch_clio_of_ne server ra h]
  match hp : (server ra).parses_to with
  | some r => simp
  | none => simp

theorem fetch_clio_neg_one_eq (server : Int → ClioResponse) :
    fetch_clio server (-1) =
      (match (server (-1)).parses_to with
       | some r => ⟨.ok r, [], 1⟩
       | none =>
         if (server (-1)).status_code = 429 then
           (match (server (-1)).retry_after_header with
            | some s => ⟨(fetch_clio server ((s : Int) + 1)).result,
                         (fetch_clio server ((s : Int) + 1)).sleeps,
                         1 + (fetch_clio server ((s : Int) + 1)).requests⟩
            | none => ⟨.error "KeyError: Retry-After", [], 1⟩)
         else ⟨.ok MarcRecord.empty, [], 1⟩) := by
  conv_lhs => unfold fetch_clio
  simp

/-! ## Claim theorems: catalog record resolution -/

/-- C4: when `fetch_clio`'s first parse attempt fails and the HTTP status
is 429 with header `Retry-After: s`, the call performs exactly one retry
(two GETs total) after sleeping `s + 1` seconds (at least 4 when `s = 3`);
and for every server behavior and every argument, at most one retry ever
occurs per call (never more than two GETs). -/
theorem fetch_clio_retries_exactly_once (server : Int → ClioResponse) :
    (∀ ra : Int, (fetch_clio server ra).requests ≤ 2)
    ∧ (∀ s : Nat, (server (-1)).parses_to = none → (server (-1)).status_code = 429 →
        (server (-1)).retry_after_header = some s →
        (fetch_clio server (-1)).requests = 2
        ∧ (fetch_clio server (-1)).sleeps = [(s : Int) + 1]
        ∧ (s = 3 → (4 : Int) ≤ (s : Int) + 1)) := by
  constructor
  · intro ra
    by_cases hra : ra = -1
    · subst hra
      rw [fetch_clio_neg_one_eq]
      match hp : (server (-1)).parses_to with
      | some r => simp
      | none =>
        by_cases hc : (server (-1)).status_code = 429
        · rw [if_pos hc]
          match hh : (server (-1)).retry_after_header with
          | some s =>
            have h1 := fetch_clio_requests_of_ne server ((s : Int) + 1) (by omega)
            simp [h1]
          | none => simp
        · rw [if_neg hc]
          simp
    · rw [fetch_clio_requests_of_ne server ra hra]
      omega
  · intro s hp hs hh
    have hsub := fetch_clio_of_ne server ((s : Int) + 1) (by omega)
    have hmain : fetch_clio server (-1)
        = ⟨(fetch_clio server ((s : Int) + 1)).result,
           (fetch_clio server ((s : Int) + 1)).sleeps,
           1 + (fetch_clio server ((s : Int) + 1)).requests⟩ := by
      simp only [fetch_clio_neg_one_eq, hp, if_pos hs, hh]
    refine ⟨?_, ?_, ?_⟩
    · rw [hmain]
      have h1 := fetch_clio_requests_of_ne server ((s : Int) + 1) (by omega)
      simp [h1]
    · rw [hmain, hsub]
      match hp2 : (server ((s : Int) + 1)).parses_to with
      | some r => simp
      | none => simp
    · intro hs3
      subst hs3
      omega

/-- Witness for C4 at a concrete rate-limiting server. -/
theorem fetch_clio_retries_exactly_once_witness :
    (fetch_clio (fun _ => ⟨429, some 3, none⟩) (-1)).requests = 2
    ∧ (fetch_clio (fun _ => ⟨429, some 3, none⟩) (-1)).sleeps = [4] := by
  have h := (fetch_clio_retries_exactly_once (fun _ => ⟨429, some 3, none⟩)).2 3 rfl rfl rfl
  exact ⟨h.1, h.2.1⟩

/-- C5: when parsing fails for any reason other than a first-attempt rate
limit (status 429), or when the retry attempt also fails to parse,
`fetch_clio` does not raise and returns the well-formed empty placeholder
record `Record()`. -/
theorem fetch_clio_returns_placeholder (server : Int → ClioResponse) :
    ((server (-1)).parses_to = none → (server (-1)).status_code ≠ 429 →
      fetch_clio server (-1) = ⟨.ok MarcRecord.empty, [], 1⟩)
    ∧ (∀ s : Nat, (server (-1)).parses_to = none → (server (-1)).status_code = 429 →
        (server (-1)).retry_after_header = some s →
        (server ((s : Int) + 1)).parses_to = none →
        (fetch_clio server (-1)).result = .ok MarcRecord.empty) := by
  constructor
  · intro hp hs
    simp only [fetch_clio_neg_one_eq, hp, if_neg hs]
  · intro s hp hs hh hp2
    simp only [fetch_clio_neg_one_eq, hp, if_pos hs, hh]
    rw [fetch_clio_of_ne server ((s : Int) + 1) (by omega), hp2]

/-- Witness for C5 at a concrete never-parsing server. -/
theorem fetch_clio_returns_placeholder_witness :
    fetch_clio (fun _ => ⟨500, none, none⟩) (-1) = ⟨.ok MarcRecord.empty, [], 1⟩
    ∧ (fetch_clio (fun _ => ⟨429, some 3, none⟩) (-1)).result = .ok MarcRecord.empty := by
  exact ⟨(fetch_clio_returns_placeholder (fun _ => ⟨500, none, none⟩)).1 rfl (by decide),
         (fetch_clio_returns_placeholder (fun _ => ⟨429, some 3, none⟩)).2 3 rfl rfl rfl rfl⟩

/-! ## Claim theorems: output shaping and links -/

/-- C8: `dump_iterable` on an empty sequence prints exactly the two lines
`[` and `]` (no dangling comma); on a three-element sequence it prints
`[`, the first serialized item, `,`, the second, `,`, the third, `]`. -/
theorem dump_iterable_line_shape {α : Type} (dumps : α → String) :
    dump_iterable dumps ([] : List α) = ["[", "]"]
    ∧ ∀ a b c : α,
        dump_iterable dumps [a, b, c]
          = ["[", dumps a, ",", dumps b, ",", dumps c, "]"] := by
  exact ⟨rfl, fun a b c => rfl⟩

/-- C9: `ia_links` is a pure deterministic function of the document's
`identifier` field — two documents with equal identifiers yield identical
URL quadruples — and on any document with an identifier it returns exactly
the four templated URL strings. -/
theorem ia_links_deterministic :
    (∀ d1 d2 : Doc, d1.find? "identifier" = d2.find? "identifier" →
      ia_links d1 = ia_links d2)
    ∧ (∀ (doc : Doc) (i : String), doc.find? "identifier" = some i →
        ia_links doc = .ok
          ⟨"https://archive.org/services/img/" ++ i,
           "https://archive.org/download/" ++ i ++ "/page/cover_medium.jpg",
           "https://archive.org/download/" ++ i ++ "/" ++ i ++ ".pdf",
           "https://archive.org/stream/" ++ i ++ "?ui=full&showNavbar=false"⟩) := by
  constructor
  · intro d1 d2 h
    unfold ia_links
    rw [h]
  · intro doc i h
    unfold ia_links
    rw [h]

/-- Witness for C9 at concrete documents sharing an identifier. -/
theorem ia_links_deterministic_witness :
    ia_links [("identifier", "abc"), ("x", "1")] = ia_links [("identifier", "abc")]
    ∧ ia_links [("identifier", "abc")] = .ok
        ⟨"https://archive.org/services/img/" ++ "abc",
         "https://archive.org/download/" ++ "abc" ++ "/page/cover_medium.jpg",
         "https://archive.org/download/" ++ "abc" ++ "/" ++ "abc" ++ ".pdf",
         "https://archive.org/stream/" ++ "abc" ++ "?ui=full&showNavbar=false"⟩ := by
  exact ⟨ia_links_deterministic.1 [("identifier", "abc"), ("x", "1")] [("identifier", "abc")] rfl,
         ia_links_deterministic.2 [("identifier", "abc")] "abc" rfl⟩

/-- C10: on any document carrying an `identifier` key, `clio_id` never
raises — even when `stripped_tags` is absent, in which case the free-text
field is treated as the empty string and the function returns `None`
whenever the structured pattern does not match either. -/
theorem clio_id_total_on_identifier (doc : Doc) (i : String)
    (h : doc.find? "identifier" = some i) :
    (clio_id doc).isOk = true
    ∧ (doc.find? "stripped_tags" = none → CLIO_DERIVED_ID_match i = none →
        clio_id doc = .ok none) := by
  constructor
  · unfold clio_id
    rw [h]
    match CLIO_DERIVED_ID_match i with
    | some m => rfl
    | none =>
      match CLIO_LINK_search ((doc.find? "stripped_tags").getD "") with
      | some b => rfl
      | none => rfl
  · intro hst hd
    unfold clio_id
    simp only [h, hd, hst]
    rfl

/-- Witness for C10 at a concrete document lacking `stripped_tags`. -/
theorem clio_id_total_on_identifier_witness :
    (clio_id [("identifier", "x")]).isOk = true
    ∧ clio_id [("identifier", "x")] = .ok none := by
  have h := clio_id_total_on_identifier [("identifier", "x")] "x" rfl
  exact ⟨h.1, h.2 rfl rfl⟩

/-! ## Claim theorems: iterator edge cases (C2) -/

/-- C2: with a page size of zero, or a query whose server-reported total
match count is zero, the iterator terminates immediately: the very first
`__next__` raises `StopIteration` after exactly one page fetch, and a
whole traversal yields nothing with no further fetches. -/
theorem ia_zero_terminates_immediately {α : Type} (items : List α) (P fuel : Nat)
    (hdeg : P = 0 ∨ items = []) (hfuel : 1 ≤ fuel) :
    (IA.next items (IA.init P 1)).1 = none
    ∧ (IA.next items (IA.init P 1)).2.fetches = 1
    ∧ (IA.run items fuel (IA.init P 1)).1 = []
    ∧ (IA.run items fuel (IA.init P 1)).2.fetches = 1 := by
  have hdocs : serverPage items P 1 = [] := by
    rcases hdeg with h | h
    · subst h; simp [serverPage]
    · subst h; simp [serverPage]
  have hnext : IA.next items (IA.init P 1)
      = (none, ⟨P, 1, [], decide (items.length > P * 1), 1⟩) := by
    unfold IA.next IA.init IA.fetchNextPage
    simp [hdocs]
  refine ⟨by rw [hnext], by rw [hnext], ?_, ?_⟩
  · match fuel, hfuel with
    | fuel + 1, _ =>
      unfold IA.run
      rw [hnext]
  · match fuel, hfuel with
    | fuel + 1, _ =>
      unfold IA.run
      rw [hnext]

/-- Witness for C2: page size zero over a nonempty result set, and a
nonzero page size over an empty result set. -/
theorem ia_zero_terminates_immediately_witness :
    ((IA.next [10, 20, 30] (IA.init 0 1)).1 = none
      ∧ (IA.next [10, 20, 30] (IA.init 0 1)).2.fetches = 1
      ∧ (IA.run [10, 20, 30] 5 (IA.init 0 1)).1 = []
      ∧ (IA.run [10, 20, 30] 5 (IA.init 0 1)).2.fetches = 1)
    ∧ ((IA.run ([] : List Nat) 5 (IA.init 50 1)).1 = []
      ∧ (IA.run ([] : List Nat) 5 (IA.init 50 1)).2.fetches = 1) := by
  have h1 := ia_zero_terminates_immediately [10, 20, 30] 0 5 (Or.inl rfl) (by omega)
  have h2 := ia_zero_terminates_immediately ([] : List Nat) 50 5 (Or.inr rfl) (by omega)
  exact ⟨h1, h2.2.2⟩

/-! ## String-matching lemmas for the two regexes -/

theorem takeWhile_append_of_all (p : Char → Bool) (xs ys : List Char)
    (h : ∀ c ∈ xs, p c = true) :
    (xs ++ ys).takeWhile p = xs ++ ys.takeWhile p := by
  induction xs with
  | nil => simp
  | cons c cs ih =>
    have hc : p c = true := h c (by simp)
    simp only [List.cons_append, List.takeWhile_cons_of_pos hc]
    rw [ih (fun c hc2 => h c (by simp [hc2]))]

theorem dropWhile_append_of_all (p : Char → Bool) (xs ys : List Char)
    (h : ∀ c ∈ xs, p c = true) :
    (xs ++ ys).dropWhile p = ys.dropWhile p := by
  induction xs with
  | nil => simp
  | cons c cs ih =>
    have hc : p c = true := h c (by simp)
    simp only [List.cons_append, List.dropWhile_cons_of_pos hc]
    exact ih (fun c hc2 => h c (by simp [hc2]))

theorem matchPat_first_mismatch (ps : List (Option Char)) (pc c : Char)
    (cs : List Char) (h : pc ≠ c) :
    matchPat (some pc :: ps) (c :: cs) = none := by
  have hb : (pc == c) = false := by simp [h]
  simp [matchPat, patCharMatches, hb]

/-- The whole `CLIO_LINK` literal prefix matches the canonical URL text
(with genuine dots where the pattern has wildcards). -/
theorem CLIO_LINK_pat_consumes (rest : List Char) :
    matchPat CLIO_LINK_pat ('"' :: ("http://clio.columbia.edu/catalog/".toList ++ rest))
      = some rest := rfl

/-- Anchored at the opening quote of an embedded catalog URL, the
`CLIO_LINK` regex captures exactly the alphanumeric identifier. -/
theorem CLIO_LINK_matchAt_url (id post : List Char) (hid : id ≠ [])
    (hal : ∀ c ∈ id, c.isAlphanum = true) :
    CLIO_LINK_matchAt ('"' :: ("http://clio.columbia.edu/catalog/".toList ++ (id ++ '"' :: post)))
      = some (String.mk id) := by
  unfold CLIO_LINK_matchAt
  rw [CLIO_LINK_pat_consumes]
  have h1 : (id ++ '"' :: post).takeWhile Char.isAlphanum = id := by
    rw [takeWhile_append_of_all _ _ _ hal,
      List.takeWhile_cons_of_neg (by decide : ¬ Char.isAlphanum '"' = true)]
    simp
  simp only [h1]
  rw [if_neg (by simp [List.isEmpty_iff, hid]), List.drop_left]
  simp

/-- A position whose character is not `"` can never start a `CLIO_LINK`
match. -/
theorem CLIO_LINK_matchAt_ne_quote (c : Char) (cs : List Char) (h : c ≠ '"') :
    CLIO_LINK_matchAt (c :: cs) = none := by
  unfold CLIO_LINK_matchAt
  rw [show CLIO_LINK_pat = some '"' :: CLIO_LINK_pat.tail from rfl,
    matchPat_first_mismatch _ _ _ _ (fun hc => h hc.symm)]

/-- `CLIO_LINK.search` over text whose only double quote opens an embedded
catalog URL finds that URL and extracts its identifier. -/
theorem CLIO_LINK_search_embedded (pre id post : List Char)
    (hpre : ∀ c ∈ pre, c ≠ '"') (hid : id ≠ [])
    (hal : ∀ c ∈ id, c.isAlphanum = true) :
    CLIO_LINK_search_list
        (pre ++ '"' :: ("http://clio.columbia.edu/catalog/".toList ++ (id ++ '"' :: post)))
      = some (String.mk id) := by
  induction pre with
  | nil =>
    simp only [List.nil_append]
    unfold CLIO_LINK_search_list
    rw [CLIO_LINK_matchAt_url id post hid hal]
  | cons c cs ih =>
    simp only [List.cons_append]
    unfold CLIO_LINK_search_list
    rw [CLIO_LINK_matchAt_ne_quote _ _ (hpre c (by simp))]
    exact ih (fun c hc => hpre c (by simp [hc]))

/-- The `CLIO_DERIVED_ID` regex on a string of the structured shape —
`ldpd`, underscores, an alphanumeric segment, underscores, digits —
captures exactly the alphanumeric segment. -/
theorem CLIO_DERIVED_ID_match_structured (us1 a us2 d : List Char)
    (h1 : us1 ≠ []) (h1al : ∀ c ∈ us1, c = '_')
    (ha : a ≠ []) (haal : ∀ c ∈ a, c.isAlphanum = true)
    (h2 : us2 ≠ []) (h2al : ∀ c ∈ us2, c = '_')
    (hd : d ≠ []) (hdal : ∀ c ∈ d, c.isDigit = true) :
    CLIO_DERIVED_ID_match_list ("ldpd".toList ++ (us1 ++ (a ++ (us2 ++ d)))) = some a := by
  obtain ⟨ah, at1, rfl⟩ : ∃ ah at1, a = ah :: at1 := by
    cases a with
    | nil => exact absurd rfl ha
    | cons x xs => exact ⟨x, xs, rfl⟩
  obtain ⟨uh, ut, rfl⟩ : ∃ uh ut, us2 = uh :: ut := by
    cases us2 with
    | nil => exact absurd rfl h2
    | cons x xs => exact ⟨x, xs, rfl⟩
  obtain ⟨dh, dt, rfl⟩ : ∃ dh dt, d = dh :: dt := by
    cases d with
    | nil => exact absurd rfl hd
    | cons x xs => exact ⟨x, xs, rfl⟩
  have hah : (ah == '_') = false := by
    have := haal ah (by simp)
    by_cases hq : ah = '_'
    · rw [hq] at this; exact absurd this (by decide)
    · simp [hq]
  have huh : uh = '_' := h2al uh (by simp)
  have hdh : (dh == '_') = false := by
    have := hdal dh (by simp)
    by_cases hq : dh = '_'
    · rw [hq] at this; exact absurd this (by decide)
    · simp [hq]
  have hdhal : ¬ Char.isAlphanum uh = true := by
    rw [huh]; decide
  unfold CLIO_DERIVED_ID_match_list
  rw [if_pos (by rw [List.take_left' (by rfl)]), List.drop_left' (by rfl)]
  have e1 : (us1 ++ (ah :: at1 ++ (uh :: ut ++ dh :: dt))).takeWhile (fun c => c == '_') = us1 := by
    rw [takeWhile_append_of_all _ _ _ (fun c hc => by simp [h1al c hc]),
      List.cons_append, List.takeWhile_cons_of_neg (by simp [hah])]
    simp
  have e2 : (us1 ++ (ah :: at1 ++ (uh :: ut ++ dh :: dt))).dropWhile (fun c => c == '_')
      = ah :: at1 ++ (uh :: ut ++ dh :: dt) := by
    rw [dropWhile_append_of_all _ _ _ (fun c hc => by simp [h1al c hc]),
      List.cons_append, List.dropWhile_cons_of_neg (by simp [hah])]
  have e3 : (ah :: at1 ++ (uh :: ut ++ dh :: dt)).takeWhile Char.isAlphanum = ah :: at1 := by
    rw [takeWhile_append_of_all _ _ _ haal, List.cons_append, List.cons_append,
      List.takeWhile_cons_of_neg hdhal]
    simp
  have e4 : (ah :: at1 ++ (uh :: ut ++ dh :: dt)).dropWhile Char.isAlphanum
      = uh :: ut ++ dh :: dt := by
    rw [dropWhile_append_of_all _ _ _ haal, List.cons_append,
      List.dropWhile_cons_of_neg hdhal]
  have e5 : (uh :: ut ++ dh :: dt).takeWhile (fun c => c == '_') = uh :: ut := by
    rw [takeWhile_append_of_all _ _ _ (fun c hc => by simp [h2al c hc]),
      List.takeWhile_cons_of_neg (by simp [hdh])]
    simp
  have e6 : (uh :: ut ++ dh :: dt).dropWhile (fun c => c == '_') = dh :: dt := by
    rw [dropWhile_append_of_all _ _ _ (fun c hc => by simp [h2al c hc]),
      List.dropWhile_cons_of_neg (by simp [hdh])]
  simp only [e1, e2, e3, e4, e5, e6]
  rw [if_pos]
  refine ⟨h1, by simp, by simp, by simp, ?_⟩
  rw [List.all_eq_true]
  exact fun c hc => hdal c hc

/-! ## Claim theorems: identifier extraction (C6, C7, C10) -/

/-- C6: on any document whose `identifier` has the structured shape —
the fixed `ldpd` prefix, underscores, an alphanumeric segment,
underscores, a numeric suffix — `clio_id` returns that alphanumeric
segment; in particular `"ldpd_1234abc_5678"` yields `"1234abc"`; and when
neither the structured pattern nor the link pattern matches anything,
`clio_id` returns `None`, which is not an error. -/
theorem clio_id_structured_first :
    (∀ (doc : Doc) (us1 a us2 d : List Char),
      doc.find? "identifier" = some (String.mk ("ldpd".toList ++ (us1 ++ (a ++ (us2 ++ d))))) →
      us1 ≠ [] → (∀ c ∈ us1, c = '_') →
      a ≠ [] → (∀ c ∈ a, c.isAlphanum = true) →
      us2 ≠ [] → (∀ c ∈ us2, c = '_') →
      d ≠ [] → (∀ c ∈ d, c.isDigit = true) →
      clio_id doc = .ok (some (String.mk a)))
    ∧ clio_id [("identifier", "ldpd_1234abc_5678")] = .ok (some "1234abc")
    ∧ (∀ (doc : Doc) (i : String), doc.find? "identifier" = some i →
        CLIO_DERIVED_ID_match i = none →
        CLIO_LINK_search ((doc.find? "stripped_tags").getD "") = none →
        clio_id doc = .ok none) := by
  refine ⟨?_, rfl, ?_⟩
  · intro doc us1 a us2 d hfind h1 h1al ha haal h2 h2al hd hdal
    have hm : CLIO_DERIVED_ID_match
        (String.mk ("ldpd".toList ++ (us1 ++ (a ++ (us2 ++ d))))) = some (String.mk a) := by
      unfold CLIO_DERIVED_ID_match
      rw [show (String.mk ("ldpd".toList ++ (us1 ++ (a ++ (us2 ++ d))))).toList
          = "ldpd".toList ++ (us1 ++ (a ++ (us2 ++ d))) from rfl,
        CLIO_DERIVED_ID_match_structured us1 a us2 d h1 h1al ha haal h2 h2al hd hdal]
      rfl
    unfold clio_id
    simp only [hfind, hm]
  · intro doc i hfind hm hs
    unfold clio_id
    simp only [hfind, hm, hs]

/-- Witness for C6 at the spec's concrete example. -/
theorem clio_id_structured_first_witness :
    clio_id [("identifier",
        String.mk ("ldpd".toList ++ (['_'] ++ (['1', '2', '3', '4', 'a', 'b', 'c'] ++ (['_'] ++ ['5', '6', '7', '8'])))))]
      = .ok (some (String.mk ['1', '2', '3', '4', 'a', 'b', 'c']))
    ∧ clio_id [("identifier", "zzz")] = .ok none := by
  refine ⟨clio_id_structured_first.1 _ ['_'] ['1', '2', '3', '4', 'a', 'b', 'c'] ['_']
      ['5', '6', '7', '8'] rfl (by decide) (by decide) (by decide) (by decide)
      (by decide) (by decide) (by decide) (by decide), ?_⟩
  exact clio_id_structured_first.2.2 [("identifier", "zzz")] "zzz" rfl rfl rfl

/-- Counterexample to C7 as stated: a document whose `identifier` matches
no structured pattern and whose `stripped_tags` embeds the catalog URL
with the `https` scheme — the claim says the link strategy extracts
`"9999"`, but `clio_id` returns `None`, because the `CLIO_LINK` regex
matches only the literal scheme `http://` (inside double quotes). -/
theorem clio_id_https_counterexample :
    clio_id [("identifier", "x"),
        ("stripped_tags", "see \"https://clio.columbia.edu/catalog/9999\" here")]
      = .ok none
    ∧ clio_id [("identifier", "x"),
        ("stripped_tags", "see \"https://clio.columbia.edu/catalog/9999\" here")]
      ≠ .ok (some "9999") := by
  constructor
  · rfl
  · intro hcontra
    have : (Except.ok none : Except String (Option String)) = .ok (some "9999") := by
      rw [← hcontra]; rfl
    simp at this

/-- C7 (amended): the free-text strategy extracts `<id>` from an embedded
double-quoted catalog URL with the literal scheme `http://` (not
`https://`): for any document whose `identifier` does not match the
structured pattern and whose `stripped_tags` contains
`"http://<catalog-host>/catalog/<id>"` preceded by quote-free text, the
extracted value is `<id>`; and the structured-identifier strategy is tried
first — its match wins over the link strategy whenever both would match. -/
theorem clio_id_link_second :
    (∀ (doc : Doc) (i st : String) (pre id post : List Char),
      doc.find? "identifier" = some i →
      CLIO_DERIVED_ID_match i = none →
      doc.find? "stripped_tags" = some st →
      st.toList = pre ++ '"' :: ("http://clio.columbia.edu/catalog/".toList ++ (id ++ '"' :: post)) →
      (∀ c ∈ pre, c ≠ '"') → id ≠ [] → (∀ c ∈ id, c.isAlphanum = true) →
      clio_id doc = .ok (some (String.mk id)))
    ∧ (∀ (doc : Doc) (i b : String),
        doc.find? "identifier" = some i →
        CLIO_DERIVED_ID_match i = some b →
        clio_id doc = .ok (some b)) := by
  constructor
  · intro doc i st pre id post hfind hm hst hshape hpre hid hal
    unfold clio_id
    simp only [hfind, hm, hst]
    rw [show (some st).getD "" = st from rfl]
    unfold CLIO_LINK_search
    rw [hshape, CLIO_LINK_search_embedded pre id post hpre hid hal]
  · intro doc i b hfind hm
    unfold clio_id
    simp only [hfind, hm]

/-- Witness for the amended C7, at a document carrying both an
(unstructured) identifier and an embedded quoted `http://` catalog URL,
and at a document where the structured strategy wins. -/
theorem clio_id_link_second_witness :
    clio_id [("identifier", "x"),
        ("stripped_tags", "see \"http://clio.columbia.edu/catalog/9999\" here")]
      = .ok (some (String.mk ['9', '9', '9', '9']))
    ∧ clio_id [("identifier", "ldpd_1234abc_5678"),
        ("stripped_tags", "see \"http://clio.columbia.edu/catalog/9999\" here")]
      = .ok (some "1234abc") := by
  constructor
  · exact clio_id_link_second.1
      [("identifier", "x"), ("stripped_tags", "see \"http://clio.columbia.edu/catalog/9999\" here")]
      "x" "see \"http://clio.columbia.edu/catalog/9999\" here"
      "see ".toList ['9', '9', '9', '9'] " here".toList
      rfl rfl rfl (by decide) (by decide) (by decide) (by decide)
  · exact clio_id_link_second.2
      [("identifier", "ldpd_1234abc_5678"), ("stripped_tags", "see \"http://clio.columbia.edu/catalog/9999\" here")]
      "ldpd_1234abc_5678" "1234abc" rfl rfl

/-! ## Iterator traversal invariant (C1, C3) -/

/-- What a completed traversal looks like: it yielded `items.drop j`, the
final buffer is empty, the more-flag is off, the final page covers all of
`items`, the page never moved backwards, and every page increment was one
fetch. -/
def IA.RunOut (items : List α) (P p f j : Nat) (out : List α × IAState α) : Prop :=
  out.1 = items.drop j
  ∧ out.2.rows = P ∧ out.2.docs = [] ∧ out.2.more = false
  ∧ items.length ≤ P * out.2.page
  ∧ p ≤ out.2.page
  ∧ out.2.fetches = f + (out.2.page - p)

/-- One-step unfolding of a traversal: yield nothing on `StopIteration`. -/
theorem IA.run_succ_none {items : List α} {s s1 : IAState α} (fuel : Nat)
    (h : IA.next items s = (none, s1)) :
    IA.run items (fuel + 1) s = ([], s1) := by
  conv_lhs => unfold IA.run
  rw [h]

/-- One-step unfolding of a traversal: a yielded document is prepended. -/
theorem IA.run_succ_some {items : List α} {s s1 : IAState α} {d : α} (fuel : Nat)
    (h : IA.next items s = (some d, s1)) :
    IA.run items (fuel + 1) s
      = (d :: (IA.run items fuel s1).1, (IA.run items fuel s1).2) := by
  conv_lhs => unfold IA.run
  rw [h]

/-- A `__next__` on an empty buffer with the more-flag set, when the pages
already fetched cover all of `items`, fetches one further (empty) page and
then stops the traversal. -/
theorem IA.run_exhausted_step (items : List α) (fuel : Nat) (s : IAState α)
    (hdocs : s.docs = []) (hmore : s.more = true)
    (hle : items.length ≤ s.rows * s.page) (hfuel : 1 ≤ fuel) :
    IA.run items fuel s
      = ([], { s with
               page := s.page + 1
               docs := []
               more := decide (items.length > s.rows * (s.page + 1))
               fetches := s.fetches + 1 }) := by
  match fuel, hfuel with
  | fuel + 1, _ =>
    have hcomm : s.page * s.rows = s.rows * s.page := Nat.mul_comm _ _
    have hdrop : items.drop (s.page * s.rows) = [] := by
      rw [List.drop_eq_nil_iff, hcomm]
      exact hle
    have hnext : IA.next items s
        = (none, { s with
                   page := s.page + 1
                   docs := []
                   more := decide (items.length > s.rows * (s.page + 1))
                   fetches := s.fetches + 1 }) := by
      unfold IA.next IA.fetchNextPage serverPage
      simp [hdocs, hmore, hdrop]
    exact IA.run_succ_none fuel hnext

/-- The loop invariant of a traversal: from a state holding rows `P`, page
`p`, the not-yet-yielded slice of page `p` (positions `j` up to `p * P` of
the ranked list), and a more-flag that is off only when pages `1..p`
already cover everything, a traversal with enough fuel yields exactly the
remaining documents, in order. -/
theorem IA.run_spec (items : List α) (P : Nat) (hP : 0 < P) :
    ∀ (fuel p j f : Nat) (m : Bool), j ≤ items.length → j ≤ p * P →
      (m = false → items.length ≤ p * P) →
      items.length - j + 1 ≤ fuel →
      IA.RunOut items P p f j
        (IA.run items fuel ⟨P, p, (items.take (p * P)).drop j, m, f⟩) := by
  intro fuel
  induction fuel with
  | zero =>
    intro p j f m hj hjp hm hfuel
    omega
  | succ fuel ih =>
    intro p j f m hj hjp hm hfuel
    by_cases hempty : (items.take (p * P)).drop j = []
    · -- buffer empty: either the traversal is over or a fetch happens
      have hminle : min (p * P) items.length ≤ j := by
        have := List.drop_eq_nil_iff.mp hempty
        rw [List.length_take] at this
        exact this
      cases m with
      | false =>
        -- more flag off: StopIteration with the state unchanged
        have hNle : items.length ≤ p * P := hm rfl
        have hjN : j = items.length := by omega
        have hnext : IA.next items (⟨P, p, (items.take (p * P)).drop j, false, f⟩ : IAState α)
            = (none, ⟨P, p, (items.take (p * P)).drop j, false, f⟩) := by
          unfold IA.next
          simp [hempty]
        rw [IA.run_succ_none fuel hnext]
        have hc : p * P = P * p := Nat.mul_comm _ _
        refine ⟨by rw [hjN, List.drop_length], rfl, hempty, rfl, ?_, le_refl p, ?_⟩
        · show items.length ≤ P * p
          omega
        · show f = f + (p - p)
          omega
      | true =>
        by_cases hcov : items.length ≤ p * P
        · -- pages so far already cover everything: one empty fetch, then stop
          have hjN : j = items.length := by omega
          have hstep := IA.run_exhausted_step items (fuel + 1)
            (⟨P, p, (items.take (p * P)).drop j, true, f⟩ : IAState α)
            hempty rfl (by simpa [Nat.mul_comm] using hcov) (by omega)
          rw [hstep]
          have hcov2 : items.length ≤ P * (p + 1) := by
            have hc : p * P = P * p := Nat.mul_comm _ _
            have hc2 : P * (p + 1) = P * p + P := Nat.mul_succ P p
            omega
          refine ⟨by rw [hjN, List.drop_length], rfl, rfl, ?_, ?_, ?_, ?_⟩
          · show decide (items.length > P * (p + 1)) = false
            simp only [decide_eq_false_iff_not, Nat.not_lt]
            exact hcov2
          · show items.length ≤ P * (p + 1)
            exact hcov2
          · show p ≤ p + 1
            omega
          · show f + 1 = f + (p + 1 - p)
            omega
        · -- a further page exists: fetch it and pop its first document
          have hjpP : j = p * P := by omega
          have hjN : j < items.length := by omega
          have hdocsfetch : serverPage items P (p + 1) = (items.take ((p + 1) * P)).drop (p * P) := by
            unfold serverPage
            simp only [Nat.add_sub_cancel]
            rw [List.take_drop, Nat.succ_mul]
          have hlen2 : j < (items.take ((p + 1) * P)).length := by
            rw [List.length_take, Nat.succ_mul]
            omega
          have hcons : (items.take ((p + 1) * P)).drop j
              = (items.take ((p + 1) * P))[j] :: (items.take ((p + 1) * P)).drop (j + 1) :=
            List.drop_eq_getElem_cons hlen2
          have hget : (items.take ((p + 1) * P))[j] = items[j] :=
            List.getElem_take items
          have hnext : IA.next items (⟨P, p, (items.take (p * P)).drop j, true, f⟩ : IAState α)
              = (some (items[j]),
                 ⟨P, p + 1, (items.take ((p + 1) * P)).drop (j + 1),
                  decide (items.length > P * (p + 1)), f + 1⟩) := by
            unfold IA.next IA.fetchNextPage
            rw [if_pos (by simp [hempty])]
            simp only [hdocsfetch, ← hjpP, hcons, hget]
          rw [IA.run_succ_some fuel hnext]
          have hrec := ih (p + 1) (j + 1) (f + 1) (decide (items.length > P * (p + 1)))
            (by omega) (by rw [Nat.succ_mul]; omega)
            (by intro hdm
                rw [decide_eq_false_iff_not, Nat.not_lt] at hdm
                have hc2 : P * (p + 1) = (p + 1) * P := Nat.mul_comm _ _
                omega)
            (by omega)
          obtain ⟨h1, h2, h3, h4, h5, h6, h7⟩ := hrec
          refine ⟨?_, h2, h3, h4, h5, ?_, ?_⟩
          · show items[j] :: (IA.run items fuel _).1 = items.drop j
            rw [h1]
            exact (List.drop_eq_getElem_cons hjN).symm
          · show p ≤ (IA.run items fuel _).2.page
            omega
          · show (IA.run items fuel _).2.fetches = f + ((IA.run items fuel _).2.page - p)
            omega
    · -- buffer nonempty: pop its head, no fetch
      have hjlt : j < min (p * P) items.length := by
        rcases Nat.lt_or_ge j (min (p * P) items.length) with h | h
        · exact h
        · exact absurd (List.drop_eq_nil_iff.mpr (by rw [List.length_take]; exact h)) hempty
      have hjN : j < items.length := by omega
      have hlen : j < (items.take (p * P)).length := by
        rw [List.length_take]
        exact hjlt
      have hcons : (items.take (p * P)).drop j
          = (items.take (p * P))[j] :: (items.take (p * P)).drop (j + 1) :=
        List.drop_eq_getElem_cons hlen
      have hget : (items.take (p * P))[j] = items[j] :=
        List.getElem_take items
      have hnext : IA.next items (⟨P, p, (items.take (p * P)).drop j, m, f⟩ : IAState α)
          = (some (items[j]),
             ⟨P, p, (items.take (p * P)).drop (j + 1), m, f⟩) := by
        unfold IA.next
        rw [hcons]
        simp [hget]
      rw [IA.run_succ_some fuel hnext]
      have hrec := ih p (j + 1) f m (by omega) (by omega) hm (by omega)
      obtain ⟨h1, h2, h3, h4, h5, h6, h7⟩ := hrec
      refine ⟨?_, h2, h3, h4, h5, h6, h7⟩
      show items[j] :: (IA.run items fuel _).1 = items.drop j
      rw [h1]
      exact (List.drop_eq_getElem_cons hjN).symm

/-! ## Claim theorems: iterator traversal (C1, C3) -/

/-- C1: for a query whose server reports `numFound = items.length = N` and
an iterator with page size `P > 0` (the server returning `min(P,
remaining)` docs per page in ranking order, per `serverPage`), a single
traversal yields exactly the `N` documents in server ranking order; and
after every page fetch the more-pages flag is false exactly when
`page * P ≥ N`. -/
theorem ia_iterator_yields_all (items : List α) (P fuel : Nat)
    (hP : 0 < P) (hfuel : items.length + 1 ≤ fuel) :
    (IA.run items fuel (IA.init P 1)).1 = items
    ∧ ∀ s : IAState α,
        ((IA.fetchNextPage items s).more = false
          ↔ items.length ≤ (IA.fetchNextPage items s).rows * (IA.fetchNextPage items s).page) := by
  constructor
  · have hinit : (IA.init P 1 : IAState α)
        = ⟨P, 0, (items.take (0 * P)).drop 0, true, 0⟩ := by
      unfold IA.init
      simp
    rw [hinit]
    have h := IA.run_spec items P hP fuel 0 0 0 true (by omega) (by omega)
      (by intro hc; exact absurd hc (by simp)) (by omega)
    have h1 := h.1
    rwa [List.drop_zero] at h1
  · intro s
    unfold IA.fetchNextPage
    simp only [decide_eq_false_iff_not, Nat.not_lt]

/-- Witness for C1 at a concrete five-document collection with page size 2
(three pages of 2, 2, 1 documents). -/
theorem ia_iterator_yields_all_witness :
    (IA.run [10, 20, 30, 40, 50] 6 (IA.init 2 1)).1 = [10, 20, 30, 40, 50]
    ∧ ((IA.fetchNextPage [10, 20, 30, 40, 50] (IA.init 2 1)).more = false
        ↔ [10, 20, 30, 40, 50].length
            ≤ (IA.fetchNextPage [10, 20, 30, 40, 50] (IA.init 2 1)).rows
              * (IA.fetchNextPage [10, 20, 30, 40, 50] (IA.init 2 1)).page) := by
  have h := ia_iterator_yields_all [10, 20, 30, 40, 50] 2 6 (by omega) (by decide)
  exact ⟨h.1, h.2 (IA.init 2 1)⟩

/-- Counterexample to C3 as stated: for the two-document ranked list
`[0, 1]` with page size 1, the first traversal yields `[0, 1]`, but after
exhaustion `__iter__` (which resets `docs` and `more` yet not
`params['page']`) leads a second traversal to fetch the page after the
last one and yield `[]` — not the same sequence again. -/
theorem ia_reiterate_counterexample :
    (IA.run [0, 1] 3 (IA.init 1 1)).1 = [0, 1]
    ∧ (IA.run [0, 1] 3 (IA.reiter (IA.run [0, 1] 3 (IA.init 1 1)).2)).1 = []
    ∧ (IA.run [0, 1] 3 (IA.reiter (IA.run [0, 1] 3 (IA.init 1 1)).2)).1
        ≠ (IA.run [0, 1] 3 (IA.init 1 1)).1 := by
  refine ⟨rfl, rfl, by decide⟩

/-- C3 (amended): `IA.__iter__` resets the buffer and the more-flag but
not the page cursor, so after an exhausted traversal re-iterating does not
restart from page 1: given identical server responses, the second
traversal performs exactly one further page fetch — of the page after the
last one fetched — and yields the empty sequence instead of repeating the
first traversal. -/
theorem ia_reiterate_yields_nothing (items : List α) (P fuel fuel2 : Nat)
    (hP : 0 < P) (hfuel : items.length + 1 ≤ fuel) (hfuel2 : 1 ≤ fuel2) :
    (IA.run items fuel2 (IA.reiter (IA.run items fuel (IA.init P 1)).2)).1 = []
    ∧ (IA.run items fuel2 (IA.reiter (IA.run items fuel (IA.init P 1)).2)).2.fetches
        = (IA.run items fuel (IA.init P 1)).2.fetches + 1
    ∧ (IA.run items fuel2 (IA.reiter (IA.run items fuel (IA.init P 1)).2)).2.page
        = (IA.run items fuel (IA.init P 1)).2.page + 1 := by
  have hinit : (IA.init P 1 : IAState α)
      = ⟨P, 0, (items.take (0 * P)).drop 0, true, 0⟩ := by
    unfold IA.init
    simp
  have h := IA.run_spec items P hP fuel 0 0 0 true (by omega) (by omega)
    (by intro hc; exact absurd hc (by simp)) (by omega)
  rw [hinit]
  obtain ⟨h1, h2, h3, h4, h5, h6, h7⟩ := h
  have hstep := IA.run_exhausted_step items fuel2
    (IA.reiter (IA.run items fuel (⟨P, 0, (items.take (0 * P)).drop 0, true, 0⟩ : IAState α)).2)
    rfl rfl
    (by show items.length ≤ (IA.run items fuel _).2.rows * (IA.run items fuel _).2.page
        rw [h2]
        exact le_trans h5 (le_refl _))
    hfuel2
  rw [hstep]
  exact ⟨rfl, rfl, rfl⟩

/-- Witness for the amended C3 at the concrete two-document scenario. -/
theorem ia_reiterate_yields_nothing_witness :
    (IA.run [0, 1] 3 (IA.reiter (IA.run [0, 1] 3 (IA.init 1 1)).2)).1 = []
    ∧ (IA.run [0, 1] 3 (IA.reiter (IA.run [0, 1] 3 (IA.init 1 1)).2)).2.fetches
        = (IA.run [0, 1] 3 (IA.init 1 1)).2.fetches + 1
    ∧ (IA.run [0, 1] 3 (IA.reiter (IA.run [0, 1] 3 (IA.init 1 1)).2)).2.page
        = (IA.run [0, 1] 3 (IA.init 1 1)).2.page + 1 :=
  ia_reiterate_yields_nothing [0, 1] 1 3 3 (by omega) (by decide) (by omega)
